import Mathlib

/-!
Verification of the information-gain evaluator, the ID3 tree-building rules, and the
out-of-core `batch_train` helper of the `ngcm_sklearn_2017` notebooks.

The executable Python code embedded here:
* `info_gain(X, y, feature)` from `2b-Decision-Trees-and-Random-Forests.ipynb`:
  for each distinct value of `X[feature]` it collects the labels of the rows with
  that value, computes `scipy.stats.entropy` (default natural-log base) of the
  label frequencies of that partition, and accumulates
  `len(partition)/len(X) * entropy(partition)`.  Note that the returned quantity is
  the weighted partition-entropy sum itself: the function never subtracts it from
  the entropy of the whole label column, although the markdown cell above it
  derives the gain formula `G(S, X) = Entropy(S) - sum of weighted entropies`
  in base 2 and announces that the function implements that algorithm.
* `batch_train(clf, fnames, labels, ...)` from `5b-Big-Data-Strategies.ipynb`:
  clones the estimator, repeatedly calls `partial_fit` on the clone with
  freshly read batches, and returns the clone.

The ID3 tree builder appears in the notebook only as a markdown pseudocode cell;
it is modelled from the specification where needed, and such definitions carry a
`Modelled from the spec` note in their doc comment.
-/

namespace NGCM

/-- A row of the tabular dataset: a mapping from column (feature) name to the
categorical value in that column, as a pandas row behaves under `X[feature]`. -/
def Row := String → String

/-- `scipy.stats.entropy(pk)` with its default natural-log base: the
probabilities are normalised by their sum and the entropy is `-sum of q * ln q`,
with the convention that a zero entry contributes `0` (the `entr` kernel of
scipy); in Lean this convention is automatic because `Real.log 0 = 0`. -/
noncomputable def scipyEntropy (pk : List ℝ) : ℝ :=
  let s := pk.sum;
  -((pk.map (fun p => (p / s) * Real.log (p / s))).sum)

/-- The list comprehension `[y[i] for i,d in enumerate(X[feature].values) if d==value]`
of `info_gain`: labels of the rows whose `feature` column equals `value`.
(Out-of-range label access, which Python would fault on, is modelled with a
default; it is never reached when `y` labels every row.) -/
def sub_y (col : List String) (y : List String) (value : String) : List String :=
  (col.enum.filter (fun p => p.2 == value)).map (fun p => y.getD p.1 "")

/-- The body of the loop of `info_gain`: the class values are the distinct
labels of the partition, `class_counts` their multiplicities,
`nc = np.sum(class_counts)`, and the entropy of the partition is
`entropy([class_counts[c]/nc for c in range(len(class_values))])`. -/
noncomputable def partition_entropy (new_y : List String) : ℝ :=
  let class_values := new_y.dedup
  let class_counts := class_values.map (fun v => (new_y.count v : ℝ))
  let nc := class_counts.sum
  scipyEntropy (class_counts.map (fun c => c / nc))

/-- `info_gain(X, y, feature)` of the notebook, translated clause by clause:
`n = len(X)`, `values = list(set(X[feature]))` (modelled by `dedup`; the result
is a sum over the distinct values, so the iteration order of the Python set is
immaterial), and for each value the accumulation
`gain += float(feature_counts[ivalue])/n * E[ivalue]` where
`feature_counts[ivalue] = len(new_y)` and `E[ivalue]` is the partition entropy. -/
noncomputable def info_gain (X : List Row) (y : List String) (feature : String) : ℝ :=
  let n := X.length
  let col := X.map (fun r => r feature)
  let values := col.dedup
  (values.map (fun value =>
    let new_y := sub_y col y value
    ((new_y.length : ℝ) / (n : ℝ)) * partition_entropy new_y)).sum

/-- Base-2 empirical entropy of a label list, following the words of the
specification: each distinct label is a class, its probability is
`count/total`, and the entropy is `-sum of p * log2 p`. -/
noncomputable def entropy2 (ys : List String) : ℝ :=
  -((ys.dedup.map (fun v =>
    ((ys.count v : ℝ) / (ys.length : ℝ)) *
      Real.logb 2 ((ys.count v : ℝ) / (ys.length : ℝ)))).sum)

/-- The formula of the specification for information gain, stated in its words
for comparison with `info_gain` of the source: partition `S` by each distinct
value of the feature, weight the base-2 entropy of each partition by its
fractional size, and subtract the weighted sum from the base-2 entropy of all
of `S`. -/
noncomputable def info_gain_spec (X : List Row) (y : List String) (feature : String) : ℝ :=
  let col := X.map (fun r => r feature)
  entropy2 y - (col.dedup.map (fun value =>
    let suby := sub_y col y value
    ((suby.length : ℝ) / (X.length : ℝ)) * entropy2 suby)).sum

/-- A decision tree: a leaf with a predicted label, or an internal node with a
splitting feature and one child per observed value of that feature. -/
inductive DTree where
  | leaf (label : String)
  | node (feature : String) (children : List (String × DTree))

/-- Left-to-right scan keeping the current best candidate; a later candidate
replaces it only on a strictly larger score, so ties go to the earliest
candidate in iteration order. -/
noncomputable def pick_max (g : String → ℝ) (x : String) (xs : List String) : String :=
  xs.foldl (fun best f => if g best < g f then f else best) x

lemma pick_max_mem (g : String → ℝ) : ∀ (xs : List String) (x : String),
    pick_max g x xs ∈ x :: xs
  | [], x => by simp [pick_max]
  | f :: t, x => by
    have h := pick_max_mem g t (if g x < g f then f else x)
    simp only [pick_max, List.foldl_cons] at h ⊢
    rcases List.mem_cons.mp h with h1 | h1
    · rw [h1]
      split <;> simp
    · simp [h1]

/-- Modelled from the spec: the argmax-by-information-gain feature selection of
the ID3 pseudocode (the builder exists in the source only as a markdown cell),
with the deterministic tie-break the spec fixes, namely the first feature in
iteration order. -/
noncomputable def argmax_feature (S : List (Row × String)) (x : String) (xs : List String) :
    String :=
  pick_max (fun f => info_gain_spec (S.map Prod.fst) (S.map Prod.snd) f) x xs

lemma argmax_feature_mem (S : List (Row × String)) (x : String) (xs : List String) :
    argmax_feature S x xs ∈ x :: xs :=
  pick_max_mem _ xs x

/-- Modelled from the spec: the majority label among the current examples, with
the deterministic tie-break the spec suggests (lexicographically smallest label
among the most frequent ones). -/
def majority_label (ls : List String) : String :=
  ls.dedup.foldl (fun best v =>
    if ls.count best < ls.count v then v
    else if ls.count best = ls.count v ∧ v < best then v
    else best) (ls.headD "")

/-- Modelled from the spec: the ID3 builder, present in the source only as
markdown pseudocode.  Rule order as specified: pure-label termination, then
no-features termination with the majority label, then a recursive split on the
gain-maximising feature, which is removed from the candidate set before each
recursive call.  (An empty example set cannot arise below a split, since every
branch corresponds to an observed value; a leaf with the empty label stands in
for that unreachable case.) -/
noncomputable def id3 : List (Row × String) → List String → DTree
  | [], _ => .leaf ""
  | e :: rest, [] =>
    if ((e :: rest).map Prod.snd).all (fun l => l == e.2) then .leaf e.2
    else .leaf (majority_label ((e :: rest).map Prod.snd))
  | e :: rest, f0 :: fs =>
    if ((e :: rest).map Prod.snd).all (fun l => l == e.2) then .leaf e.2
    else
      let best := argmax_feature (e :: rest) f0 fs
      .node best ((((e :: rest).map (fun ex => ex.1 best)).dedup).map (fun v =>
        (v, id3 ((e :: rest).filter (fun ex => ex.1 best == v)) ((f0 :: fs).erase best))))
termination_by _ features => features.length
decreasing_by
  have hmem : argmax_feature (e :: rest) f0 fs ∈ f0 :: fs := argmax_feature_mem (e :: rest) f0 fs
  rw [List.length_erase_of_mem hmem]
  simp

/-- Along every root-to-leaf path of the tree, no splitting feature is in
`avoid` and no feature repeats: each node feature is fresh and is added to the
avoided set for its subtrees. -/
inductive NoRepeatFrom : List String → DTree → Prop where
  | leaf : ∀ (avoid : List String) (l : String), NoRepeatFrom avoid (.leaf l)
  | node : ∀ (avoid : List String) (f : String) (cs : List (String × DTree)),
      f ∉ avoid →
      (∀ p ∈ cs, NoRepeatFrom (f :: avoid) p.2) →
      NoRepeatFrom avoid (.node f cs)

/-- An estimator object as `batch_train` uses one: its constructor
hyperparameters plus the mutable training history, recorded as the sequence of
`partial_fit(X, y, classes)` calls it has received. -/
structure Estimator (M : Type) where
  params : List (String × String)
  fitted : List (M × List ℕ × List ℕ)

/-- The Python object store: estimator objects live on a heap addressed by
references, and names such as `clf` and `c_clf` hold references into it. -/
structure Store (M : Type) where
  heap : ℕ → Estimator M
  next : ℕ

/-- `sklearn.base.clone(clf)`, as documented by sklearn: allocate a new
estimator carrying the same constructor parameters as the referenced one but
with no fitted state, and return the fresh reference; the original object is
untouched. -/
def clone {M : Type} (σ : Store M) (r : ℕ) : Store M × ℕ :=
  ({ heap := fun m =>
      if m = σ.next then { params := (σ.heap r).params, fitted := [] } else σ.heap m,
     next := σ.next + 1 }, σ.next)

/-- `est.partial_fit(X=..., y=..., classes=...)`: mutate the referenced
estimator in place, extending its fitted history by this batch. -/
def partial_fit {M : Type} (σ : Store M) (r : ℕ) (Xb : M) (yb : List ℕ)
    (classes : List ℕ) : Store M :=
  { σ with heap := fun m =>
      if m = r then
        { params := (σ.heap r).params, fitted := (σ.heap r).fitted ++ [(Xb, yb, classes)] }
      else σ.heap m }

/-- `batch_train(clf, fnames, labels, iterations, batchsize, random_seed)` of
`5b-Big-Data-Strategies.ipynb`: clone the estimator, and for each iteration
draw `batchsize` random indices (`rng.choice` on a seeded generator, modelled
by the deterministic stream `rngChoice`), read the corresponding review files
(modelled by `readDoc`), hash them with the `HashingVectorizer` (modelled by
`vec`), and call `partial_fit` on the clone with the batch and
`classes=[0, 1]`; finally return the clone. -/
def batch_train {M : Type} (σ : Store M) (clf : ℕ) (fnames : List String)
    (labels : List ℕ) (iterations batchsize : ℕ) (rngChoice : ℕ → ℕ → List ℕ)
    (readDoc : String → String) (vec : List String → M) : Store M × ℕ :=
  let p := clone σ clf
  let c_clf := p.2
  let σ2 := (List.range iterations).foldl (fun st i =>
    let rnd_idx := rngChoice i batchsize
    let documents := rnd_idx.map (fun j => readDoc (fnames.getD j ""))
    let batch_labels := rnd_idx.map (fun j => labels.getD j 0)
    let X_batch := vec documents
    partial_fit st c_clf X_batch batch_labels [0, 1]) p.1
  (σ2, c_clf)

/-- A titanic-style row whose only populated column is `X`, used for the worked
example of the notebook. -/
def rowX (v : String) : Row := fun fe => if fe = "X" then v else ""

/-- The worked example of the notebook: four passengers with feature values
`x1 -> v2, x2 -> v2, x3 -> v3, x4 -> v1`. -/
def Xe : List Row := [rowX "v2", rowX "v2", rowX "v3", rowX "v1"]

/-- The labels of the worked example: one survivor, three casualties. -/
def ye : List String := ["survived", "died", "died", "died"]

/-- A row whose only populated column is `f`. -/
def rowF (v : String) : Row := fun fe => if fe = "f" then v else ""

/-- Two rows agreeing on feature `f`. -/
def Xc1 : List Row := [rowF "u", rowF "u"]

/-- Two distinct labels for `Xc1`. -/
def yc1 : List String := ["a", "b"]

/-- Two rows agreeing on feature `f` (input for the single-valued-feature
claim). -/
def Xc6 : List Row := [rowF "w", rowF "w"]

/-- Two distinct labels for `Xc6`. -/
def yc6 : List String := ["yes", "no"]

/-- A row with two populated columns `X` and `Z`. -/
def row2 (v w : String) : Row :=
  fun fe => if fe = "X" then v else if fe = "Z" then w else ""

/-- First table for the column-dependence witness. -/
def X9a : List Row := [row2 "v1" "p", row2 "v2" "q"]

/-- Second table: same `X` column as `X9a`, different `Z` column. -/
def X9b : List Row := [row2 "v1" "r", row2 "v2" "s"]

/-- Labels shared by `X9a` and `X9b`. -/
def y9 : List String := ["a", "b"]

/-- A two-example dataset whose labels agree. -/
def S4w : List (Row × String) := [(rowF "u", "yes"), (rowF "v", "yes")]

/-- A two-example dataset with mixed labels. -/
def S5w : List (Row × String) := [(rowF "u", "yes"), (rowF "v", "no")]

/-- A one-row table for the nonnegativity witness. -/
def X7w : List Row := [rowX "v1"]

/-- The label of the single row of `X7w`. -/
def y7w : List String := ["died"]

/-- A one-object store holding an unfitted classifier at reference `0`. -/
def σw : Store ℕ :=
  { heap := fun _ => { params := [("loss", "log")], fitted := [] }, next := 1 }

lemma scipyEntropy_single (c : ℝ) : scipyEntropy [c] = 0 := by
  rcases eq_or_ne c 0 with h | h
  · simp [scipyEntropy, h]
  · simp [scipyEntropy, div_self h]

lemma scipyEntropy_pair (x : ℝ) (hx : x ≠ 0) : scipyEntropy [x, x] = Real.log 2 := by
  have hs : x / (x + (x + 0)) = (2 : ℝ)⁻¹ := by
    rw [show x + (x + 0) = x * 2 by ring, div_mul_eq_div_div, div_self hx, one_div]
  simp only [scipyEntropy, List.sum_cons, List.sum_nil, List.map_cons, List.map_nil]
  rw [hs, Real.log_inv]
  ring

lemma dedup_of_all_eq {α : Type} [DecidableEq α] :
    ∀ (ys : List α) (c : α), ys ≠ [] → (∀ a ∈ ys, a = c) → ys.dedup = [c]
  | [a], c, _, h => by simp [h a (by simp)]
  | a :: b :: t, c, _, h => by
    have ha : a = c := h a (by simp)
    have hb : b = c := h b (by simp)
    have ih : (b :: t).dedup = [c] :=
      dedup_of_all_eq (b :: t) c (by simp) (fun x hx => h x (List.mem_cons_of_mem _ hx))
    have hmem : a ∈ b :: t := by rw [ha, ← hb]; exact List.mem_cons_self _ _
    rw [List.dedup_cons_of_mem hmem, ih]

lemma partition_entropy_all_eq (ys : List String) (c : String)
    (hne : ys ≠ []) (h : ∀ a ∈ ys, a = c) : partition_entropy ys = 0 := by
  simp only [partition_entropy]
  rw [dedup_of_all_eq ys c hne h]
  simp [scipyEntropy_single]

lemma partition_entropy_pair (a b : String) (h : a ≠ b) :
    partition_entropy [a, b] = Real.log 2 := by
  have hd : ([a, b] : List String).dedup = [a, b] := by
    rw [List.dedup_cons_of_not_mem (by simp [h]), List.dedup_cons_of_not_mem (by simp),
      List.dedup_nil]
  have hca : ([a, b] : List String).count a = 1 := by simp [List.count_cons, h.symm]
  have hcb : ([a, b] : List String).count b = 1 := by simp [List.count_cons, h]
  simp only [partition_entropy]
  rw [hd]
  simp only [List.map_cons, List.map_nil, hca, hcb, List.sum_cons, List.sum_nil, Nat.cast_one]
  norm_num
  exact scipyEntropy_pair _ (by norm_num)

lemma list_sum_nonpos : ∀ (l : List ℝ), (∀ x ∈ l, x ≤ 0) → l.sum ≤ 0
  | [], _ => by simp
  | x :: t, h => by
    have ht : t.sum ≤ 0 := list_sum_nonpos t (fun a ha => h a (List.mem_cons_of_mem _ ha))
    have hx : x ≤ 0 := h x (List.mem_cons_self _ _)
    simpa using add_nonpos hx ht

lemma scipyEntropy_nonneg (pk : List ℝ) (hpk : ∀ p ∈ pk, 0 ≤ p) : 0 ≤ scipyEntropy pk := by
  simp only [scipyEntropy, Left.nonneg_neg_iff]
  apply list_sum_nonpos
  intro x hx
  simp only [List.mem_map] at hx
  obtain ⟨p, hp, rfl⟩ := hx
  have hs : 0 ≤ pk.sum := List.sum_nonneg hpk
  have hq0 : 0 ≤ p / pk.sum := div_nonneg (hpk p hp) hs
  have hq1 : p / pk.sum ≤ 1 := by
    rcases eq_or_lt_of_le hs with h0 | h0
    · rw [← h0, div_zero]; norm_num
    · exact div_le_one_of_le₀ (List.single_le_sum hpk p hp) hs
  exact mul_nonpos_iff.mpr (Or.inl ⟨hq0, Real.log_nonpos hq0 hq1⟩)

lemma partition_entropy_nonneg (new_y : List String) : 0 ≤ partition_entropy new_y := by
  simp only [partition_entropy]
  apply scipyEntropy_nonneg
  intro p hp
  simp only [List.mem_map] at hp
  obtain ⟨c, hc, rfl⟩ := hp
  obtain ⟨v, hv, rfl⟩ := hc
  apply div_nonneg (Nat.cast_nonneg _)
  apply List.sum_nonneg
  intro x hx
  simp only [List.mem_map] at hx
  obtain ⟨w, hw, rfl⟩ := hx
  exact Nat.cast_nonneg _

lemma info_gain_worked_example : info_gain Xe ye "X" = Real.log 2 / 2 := by
  have hcol : Xe.map (fun r => r "X") = ["v2", "v2", "v3", "v1"] := by decide
  have hd : (["v2", "v2", "v3", "v1"] : List String).dedup = ["v2", "v3", "v1"] := by decide
  have h2 : sub_y ["v2", "v2", "v3", "v1"] ye "v2" = ["survived", "died"] := by decide
  have h3 : sub_y ["v2", "v2", "v3", "v1"] ye "v3" = ["died"] := by decide
  have h1 : sub_y ["v2", "v2", "v3", "v1"] ye "v1" = ["died"] := by decide
  have hlen : Xe.length = 4 := by decide
  simp only [info_gain]
  rw [hcol, hd]
  simp only [List.map_cons, List.map_nil, List.sum_cons, List.sum_nil, h1, h2, h3, hlen]
  rw [partition_entropy_pair _ _ (by decide),
    partition_entropy_all_eq ["died"] "died" (by decide) (by decide)]
  norm_num
  ring

lemma id3_nil (features : List String) : id3 [] features = .leaf "" := by
  rw [id3.eq_def]

lemma id3_cons_nil (e : Row × String) (rest : List (Row × String)) :
    id3 (e :: rest) [] =
      if ((e :: rest).map Prod.snd).all (fun l => l == e.2) then .leaf e.2
      else .leaf (majority_label ((e :: rest).map Prod.snd)) := by
  rw [id3.eq_def]

lemma id3_cons_cons (e : Row × String) (rest : List (Row × String)) (f0 : String)
    (fs : List String) :
    id3 (e :: rest) (f0 :: fs) =
      if ((e :: rest).map Prod.snd).all (fun l => l == e.2) then .leaf e.2
      else
        DTree.node (argmax_feature (e :: rest) f0 fs)
          ((((e :: rest).map (fun ex => ex.1 (argmax_feature (e :: rest) f0 fs))).dedup).map
            (fun v =>
              (v, id3 ((e :: rest).filter (fun ex => ex.1 (argmax_feature (e :: rest) f0 fs) == v))
                ((f0 :: fs).erase (argmax_feature (e :: rest) f0 fs))))) := by
  rw [id3.eq_def]

lemma id3_noRepeatFrom_aux : ∀ (n : ℕ) (features : List String), features.length ≤ n →
    ∀ (S : List (Row × String)) (avoid : List String), features.Nodup →
      (∀ a ∈ avoid, a ∉ features) → NoRepeatFrom avoid (id3 S features) := by
  intro n
  induction n with
  | zero =>
    intro features hlen S avoid _ _
    have hf : features = [] := List.length_eq_zero.mp (Nat.le_zero.mp hlen)
    subst hf
    match S with
    | [] => rw [id3_nil]; exact NoRepeatFrom.leaf _ _
    | e :: rest =>
      rw [id3_cons_nil]
      split
      · exact NoRepeatFrom.leaf _ _
      · exact NoRepeatFrom.leaf _ _
  | succ n ih =>
    intro features hlen S avoid hnd hdisj
    match S with
    | [] => rw [id3_nil]; exact NoRepeatFrom.leaf _ _
    | e :: rest =>
      match features, hlen, hnd, hdisj with
      | [], _, _, _ =>
        rw [id3_cons_nil]
        split
        · exact NoRepeatFrom.leaf _ _
        · exact NoRepeatFrom.leaf _ _
      | f0 :: fs, hlen, hnd, hdisj =>
        rw [id3_cons_cons]
        split
        · exact NoRepeatFrom.leaf _ _
        · apply NoRepeatFrom.node
          · exact fun hmem => hdisj _ hmem (argmax_feature_mem _ _ _)
          · intro p hp
            obtain ⟨v, hv, rfl⟩ := List.mem_map.mp hp
            apply ih
            · have hm : argmax_feature (e :: rest) f0 fs ∈ f0 :: fs :=
                argmax_feature_mem _ _ _
              rw [List.length_erase_of_mem hm]
              simpa using Nat.le_of_succ_le_succ hlen
            · exact hnd.erase _
            · intro a ha
              rcases List.mem_cons.mp ha with rfl | ha2
              · exact fun hin => ((hnd.mem_erase_iff).mp hin).1 rfl
              · exact fun hin => hdisj a ha2 (List.erase_subset _ _ hin)

lemma foldl_partial_fit_heap_ne {M : Type} (r q : ℕ) (hqr : q ≠ r)
    (F : ℕ → M) (G H : ℕ → List ℕ) :
    ∀ (l : List ℕ) (st : Store M),
      ((l.foldl (fun s i => partial_fit s r (F i) (G i) (H i)) st).heap q) = st.heap q
  | [], st => rfl
  | i :: t, st => by
    rw [List.foldl_cons, foldl_partial_fit_heap_ne r q hqr F G H t _]
    simp [partial_fit, hqr]

lemma foldl_partial_fit_heap_self {M : Type} (r : ℕ)
    (F : ℕ → M) (G H : ℕ → List ℕ) :
    ∀ (l : List ℕ) (st : Store M),
      ((l.foldl (fun s i => partial_fit s r (F i) (G i) (H i)) st).heap r) =
        { params := (st.heap r).params,
          fitted := (st.heap r).fitted ++ l.map (fun i => (F i, G i, H i)) }
  | [], st => by simp
  | i :: t, st => by
    rw [List.foldl_cons, foldl_partial_fit_heap_self r F G H t _]
    simp [partial_fit]

/-- C1: the claim states that `info_gain` returns the base-2 entropy of the
whole label set minus the weighted partition entropies.  It does not: on the
two-row dataset `Xc1` whose feature column is constant, the code returns
`ln 2` (the natural-log entropy of the unsplit labels) while the documented
formula gives `0`, so the two disagree.  The code contradicts the markdown
cell directly above it, which derives the subtraction formula in base 2 and
states that the function implements it. -/
theorem info_gain_deviates_from_spec_gain :
    info_gain Xc1 yc1 "f" = Real.log 2 ∧ info_gain_spec Xc1 yc1 "f" = 0 ∧
      Real.log 2 ≠ 0 := by
  have hcol : Xc1.map (fun r => r "f") = ["u", "u"] := by decide
  have hd : (["u", "u"] : List String).dedup = ["u"] := by decide
  have hs : sub_y ["u", "u"] yc1 "u" = ["a", "b"] := by decide
  have hlen : Xc1.length = 2 := by decide
  refine ⟨?_, ?_, ne_of_gt (Real.log_pos one_lt_two)⟩
  · simp only [info_gain]
    rw [hcol, hd]
    simp only [List.map_cons, List.map_nil, List.sum_cons, List.sum_nil, hs, hlen]
    rw [partition_entropy_pair _ _ (by decide)]
    norm_num
  · simp only [info_gain_spec]
    rw [hcol, hd]
    simp only [List.map_cons, List.map_nil, List.sum_cons, List.sum_nil, hs, hlen]
    norm_num [yc1]

/-- C2: on the worked four-passenger example the claim (and the markdown of
the notebook) expects `info_gain` to return about `0.3113`; the code actually
returns `ln(2)/2`, which lies strictly between `0.34` and `0.35`, because it
omits the subtraction from the total entropy and uses natural logarithms. -/
theorem info_gain_worked_example_deviates :
    info_gain Xe ye "X" = Real.log 2 / 2 ∧
      (0.34 : ℝ) < Real.log 2 / 2 ∧ Real.log 2 / 2 < (0.35 : ℝ) := by
  refine ⟨info_gain_worked_example, ?_, ?_⟩
  · have h := Real.log_two_gt_d9
    linarith
  · have h := Real.log_two_lt_d9
    linarith

/-- C3 (counterexample): on the empty dataset the evaluator does not fail with
an empty-input error; it runs the loop zero times and returns the value `0`. -/
theorem info_gain_empty_input_concrete :
    info_gain ([] : List Row) ([] : List String) "pclass" = 0 := rfl

/-- C3 (amended): for every label column and feature name, `info_gain` on the
empty dataset returns `0` rather than raising any error: the code has no error
path at all. -/
theorem info_gain_empty_returns_zero (y : List String) (feature : String) :
    info_gain [] y feature = 0 := rfl

/-- C4: if every example of a non-empty dataset carries the same label, the
ID3 builder returns a single leaf holding that label, whatever candidate
features are supplied. -/
theorem id3_pure_label_leaf (S : List (Row × String)) (features : List String)
    (l : String) (hne : S ≠ []) (hall : ∀ e ∈ S, e.2 = l) :
    id3 S features = .leaf l := by
  match S, hne with
  | e :: rest, _ =>
    have he : e.2 = l := hall e (List.mem_cons_self _ _)
    have hcond : (((e :: rest).map Prod.snd).all (fun lab => lab == e.2)) = true := by
      rw [List.all_eq_true]
      intro x hx
      obtain ⟨ex, hex, rfl⟩ := List.mem_map.mp hx
      rw [beq_iff_eq, hall ex hex, he]
    cases features with
    | nil => rw [id3_cons_nil, if_pos hcond, he]
    | cons f0 fs => rw [id3_cons_cons, if_pos hcond, he]

/-- C4 (witness): the pure-label rule at a concrete input. -/
theorem id3_pure_label_leaf_witness :
    (S4w ≠ [] ∧ ∀ e ∈ S4w, e.2 = "yes") ∧ id3 S4w ["f", "g"] = .leaf "yes" :=
  ⟨⟨by simp [S4w], by simp [S4w]⟩,
    id3_pure_label_leaf S4w ["f", "g"] "yes" (by simp [S4w]) (by simp [S4w])⟩

/-- C5: when the candidate features are pairwise distinct, the tree built by
ID3 never repeats a splitting feature along any root-to-leaf path, because the
chosen feature is erased from the candidate set before each recursive call. -/
theorem id3_no_repeated_split_feature (S : List (Row × String))
    (features : List String) (hnd : features.Nodup) :
    NoRepeatFrom [] (id3 S features) :=
  id3_noRepeatFrom_aux features.length features le_rfl S [] hnd (by simp)

/-- C5 (witness): the no-repetition invariant at a concrete input that does
reach the recursive-split rule. -/
theorem id3_no_repeated_split_feature_witness :
    (["f"] : List String).Nodup ∧ NoRepeatFrom [] (id3 S5w ["f"]) :=
  ⟨by decide, id3_no_repeated_split_feature S5w ["f"] (by decide)⟩

/-- C6: the claim states that a feature with a single observed value yields
gain exactly `0`.  The code disagrees: on the two-row dataset `Xc6` whose
feature column is constant but whose labels differ, `info_gain` returns
`ln 2 > 0` — the (natural-log) entropy of the unsplit label set — because the
subtraction from the total entropy is missing. -/
theorem info_gain_single_valued_feature_nonzero :
    info_gain Xc6 yc6 "f" = Real.log 2 ∧ (0 : ℝ) < Real.log 2 := by
  have hcol : Xc6.map (fun r => r "f") = ["w", "w"] := by decide
  have hd : (["w", "w"] : List String).dedup = ["w"] := by decide
  have hs : sub_y ["w", "w"] yc6 "w" = ["yes", "no"] := by decide
  have hlen : Xc6.length = 2 := by decide
  refine ⟨?_, Real.log_pos one_lt_two⟩
  simp only [info_gain]
  rw [hcol, hd]
  simp only [List.map_cons, List.map_nil, List.sum_cons, List.sum_nil, hs, hlen]
  rw [partition_entropy_pair _ _ (by decide)]
  norm_num

/-- C7: for every non-empty dataset and every candidate feature the value
returned by `info_gain` is nonnegative: it is a sum, over the observed feature
values, of nonnegative weights times nonnegative scipy entropies. -/
theorem info_gain_nonneg (X : List Row) (y : List String) (feature : String)
    (hne : X ≠ []) : 0 ≤ info_gain X y feature := by
  clear hne
  simp only [info_gain]
  apply List.sum_nonneg
  intro t ht
  obtain ⟨v, hv, rfl⟩ := List.mem_map.mp ht
  exact mul_nonneg (div_nonneg (Nat.cast_nonneg _) (Nat.cast_nonneg _))
    (partition_entropy_nonneg _)

/-- C7 (witness): nonnegativity at a concrete one-row dataset. -/
theorem info_gain_nonneg_witness :
    X7w ≠ [] ∧ 0 ≤ info_gain X7w y7w "X" :=
  ⟨by simp [X7w], info_gain_nonneg X7w y7w "X" (by simp [X7w])⟩

/-- C8: the entropy the evaluator computes for a non-empty single-class label
sequence is exactly `0`; in particular every single-class partition inside
`info_gain` contributes entropy `0` to the accumulated sum. -/
theorem entropy_single_class_zero (ys : List String) (c : String)
    (hne : ys ≠ []) (h : ∀ a ∈ ys, a = c) : partition_entropy ys = 0 :=
  partition_entropy_all_eq ys c hne h

/-- C8 (witness): a concrete single-class label sequence. -/
theorem entropy_single_class_zero_witness :
    ((["died", "died", "died"] : List String) ≠ [] ∧
      ∀ a ∈ (["died", "died", "died"] : List String), a = "died") ∧
      partition_entropy ["died", "died", "died"] = 0 :=
  ⟨by decide, entropy_single_class_zero ["died", "died", "died"] "died"
    (by decide) (by decide)⟩

/-- C9: `info_gain` depends only on the selected feature column, the label
column and the number of rows (which the column determines): two tables with
the same `feature` column yield the same gain for the same labels, so no other
column can influence the output. -/
theorem info_gain_depends_only_on_feature_column (X₁ X₂ : List Row)
    (y : List String) (feature : String)
    (h : X₁.map (fun r => r feature) = X₂.map (fun r => r feature)) :
    info_gain X₁ y feature = info_gain X₂ y feature := by
  have hlen : X₁.length = X₂.length := by
    have hl := congrArg List.length h
    simpa using hl
  simp only [info_gain]
  rw [h, hlen]

/-- C9 (witness): two concrete tables agreeing on column `X` but differing on
column `Z` receive the same gain. -/
theorem info_gain_depends_only_on_feature_column_witness :
    (X9a.map (fun r => r "X") = X9b.map (fun r => r "X")) ∧
      (X9a.map (fun r => r "Z") ≠ X9b.map (fun r => r "Z")) ∧
      info_gain X9a y9 "X" = info_gain X9b y9 "X" :=
  ⟨by decide, by decide,
    info_gain_depends_only_on_feature_column X9a X9b y9 "X" (by decide)⟩

/-- C10: `batch_train` never mutates the estimator passed as `clf`: given a
valid reference, the original heap cell is unchanged, the returned reference
is a different object, and that object is the clone — same constructor
parameters, fitted exactly on the sequence of batches of the loop. -/
theorem batch_train_preserves_original_estimator {M : Type} (σ : Store M)
    (clf : ℕ) (fnames : List String) (labels : List ℕ)
    (iterations batchsize : ℕ) (rngChoice : ℕ → ℕ → List ℕ)
    (readDoc : String → String) (vec : List String → M)
    (hvalid : clf < σ.next) :
    ((batch_train σ clf fnames labels iterations batchsize rngChoice readDoc vec).1.heap clf
        = σ.heap clf) ∧
    (batch_train σ clf fnames labels iterations batchsize rngChoice readDoc vec).2 ≠ clf ∧
    ((batch_train σ clf fnames labels iterations batchsize rngChoice readDoc vec).1.heap
        (batch_train σ clf fnames labels iterations batchsize rngChoice readDoc vec).2) =
      { params := (σ.heap clf).params,
        fitted := (List.range iterations).map (fun i =>
          (vec ((rngChoice i batchsize).map (fun j => readDoc (fnames.getD j ""))),
           (rngChoice i batchsize).map (fun j => labels.getD j 0), [0, 1])) } := by
  have hne : σ.next ≠ clf := hvalid.ne'
  refine ⟨?_, ?_, ?_⟩
  · simp only [batch_train, clone]
    rw [foldl_partial_fit_heap_ne σ.next clf hvalid.ne]
    simp [hvalid.ne]
  · simp only [batch_train, clone]
    exact hne
  · simp only [batch_train, clone]
    rw [foldl_partial_fit_heap_self]
    simp

/-- C10 (witness): the frame property at a concrete one-classifier store and a
one-iteration training run. -/
theorem batch_train_preserves_original_estimator_witness :
    (0 < σw.next) ∧
    (((batch_train σw 0 ["a.txt"] [1, 0] 1 2 (fun _ _ => [0, 1]) (fun s => s)
        (fun ds => ds.length)).1.heap 0 = σw.heap 0) ∧
      (batch_train σw 0 ["a.txt"] [1, 0] 1 2 (fun _ _ => [0, 1]) (fun s => s)
        (fun ds => ds.length)).2 ≠ 0 ∧
      ((batch_train σw 0 ["a.txt"] [1, 0] 1 2 (fun _ _ => [0, 1]) (fun s => s)
          (fun ds => ds.length)).1.heap
        (batch_train σw 0 ["a.txt"] [1, 0] 1 2 (fun _ _ => [0, 1]) (fun s => s)
          (fun ds => ds.length)).2) =
        { params := (σw.heap 0).params,
          fitted := (List.range 1).map (fun i =>
            ((((fun _ _ => [0, 1] : ℕ → ℕ → List ℕ) i 2).map
                (fun j => (fun s => s) ((["a.txt"] : List String).getD j ""))).length,
             ((fun _ _ => [0, 1] : ℕ → ℕ → List ℕ) i 2).map
                (fun j => ([1, 0] : List ℕ).getD j 0), [0, 1])) }) :=
  ⟨by decide, batch_train_preserves_original_estimator σw 0 ["a.txt"] [1, 0] 1 2
    (fun _ _ => [0, 1]) (fun s => s) (fun ds => ds.length) (by decide)⟩

end NGCM
